import Mathlib

/-!
Verification of the genre-fixing plugin (beetsplug/genrefixer).
Shallow embedding of common.py and command.py: Python dicts are modelled as
insertion-ordered association lists, Python floats as rationals, and
Python round (banker's rounding, round half to even) as an exact
rational rounding to three decimals.
-/

set_option maxRecDepth 8000

namespace GenreFixer

/-- Round half to even at integer precision, the rounding mode of Python round. -/
def rhe (x : ℚ) : ℤ :=
  if x - ⌊x⌋ < 1/2 then ⌊x⌋
  else if 1/2 < x - ⌊x⌋ then ⌊x⌋ + 1
  else if ⌊x⌋ % 2 = 0 then ⌊x⌋ else ⌊x⌋ + 1

/-- Python round(x, 3) as exact half-even rounding of a rational to a
multiple of 1/1000. CPython applies exactly this to the exact binary value
of its float argument (its rounding is correct via the exact value) and
then stores the decimal result as the nearest double; pyround3f below
composes this definition with that final double rounding. -/
def round3 (x : ℚ) : ℚ := ((rhe (1000 * x) : ℤ) : ℚ) / 1000

/-- Python dict assignment d[k] = v: overwrite in place when the key is
present (keeping its position), append otherwise. -/
def dinsert (k : String) (v : ℚ) : List (String × ℚ) → List (String × ℚ)
  | [] => [(k, v)]
  | p :: rest => if p.1 = k then (k, v) :: rest else p :: dinsert k v rest

/-- One result block of a RawTagResponse; tags = none models a block whose
dict has no tags key (common.py line 41 membership test). -/
structure Block where
  tags : Option (List (String × ℚ))
deriving DecidableEq

/-- Python max over the values of a nonempty dict (0 for the empty dict,
which the code never queries). -/
def maxVals (t : List (String × ℚ)) : ℚ :=
  match t with
  | [] => 0
  | p :: ps => ps.foldl (fun a q => max a q.2) p.2

/-- The max == 0 fallback of common.get_normalized_tags, line 47:
the i-th tag (0-indexed) gets provisional score 1 / (i + 1). -/
def rankFallback (t : List (String × ℚ)) : List (String × ℚ) :=
  t.enum.map (fun ip => (ip.2.1, 1 / ((ip.1 : ℚ) + 1)))

/-- common.get_normalized_tags (common.py lines 39-54). -/
def get_normalized_tags (dp_response : List Block) (_min : ℚ := 1/10) :
    List (String × ℚ) :=
  match dp_response with
  | [b] =>
    match b.tags with
    | some t =>
      if t.isEmpty then []
      else
        let _max := maxVals t
        let t1 := if _max = 0 then rankFallback t else t
        let _max1 := maxVals t1
        t1.filterMap (fun p =>
          if _min ≤ p.2 / _max1 then some (p.1, round3 (p.2 / _max1)) else none)
    | none => []
  | _ => []

/-- Python str.split(given a separator) on a list of characters: split on
the space character, keeping empty words. -/
def splitWords : List Char → List (List Char)
  | [] => [[]]
  | c :: cs =>
    if c = ' ' then [] :: splitWords cs
    else
      match splitWords cs with
      | [] => [[c]]
      | w :: ws => (c :: w) :: ws

/-- Python str.title on a character list: a letter following a non-letter
is upper-cased, a letter following a letter is lower-cased. -/
def titleAux : Bool → List Char → List Char
  | _, [] => []
  | prev, c :: cs =>
    if c.isAlpha then
      (if prev then c.toLower else c.toUpper) :: titleAux true cs
    else c :: titleAux false cs

/-- common.get_formatted_tag (common.py lines 28-36): split on spaces,
words shorter than 3 characters are upper-cased, the rest title-cased,
rejoin with single spaces. -/
def get_formatted_tag (tag : String) : String :=
  String.intercalate " "
    ((splitWords tag.data).map (fun w =>
      if w.length < 3 then String.mk (w.map Char.toUpper)
      else String.mk (titleAux false w)))

/-- Modelled from the spec: the canonicalization rule as the spec words it,
a word of length at least 3 becomes first letter upper and all remaining
characters lower (the repository instead applies Python str.title). -/
def specFormatTag (tag : String) : String :=
  String.intercalate " "
    ((splitWords tag.data).map (fun w =>
      if w.length < 3 then String.mk (w.map Char.toUpper)
      else
        match w with
        | [] => String.mk []
        | c :: cs => String.mk (c.toUpper :: cs.map Char.toLower)))

/-- The dict comprehension of command.py line 214: rebuild the map with
canonicalized keys; a later colliding key overwrites the value. -/
def format_tags (tags : List (String × ℚ)) : List (String × ℚ) :=
  tags.foldl (fun acc p => dinsert (get_formatted_tag p.1) p.2 acc) []

lemma rhe_spec (q : ℚ) :
    ((rhe q : ℤ) : ℚ) - 1/2 ≤ q ∧ q ≤ ((rhe q : ℤ) : ℚ) + 1/2 ∧
      (q = ((rhe q : ℤ) : ℚ) + 1/2 → rhe q % 2 = 0) ∧
      (q = ((rhe q : ℤ) : ℚ) - 1/2 → rhe q % 2 = 0) := by
  have hf1 : ((⌊q⌋ : ℤ) : ℚ) ≤ q := Int.floor_le q
  have hf2 : q < ((⌊q⌋ : ℤ) : ℚ) + 1 := Int.lt_floor_add_one q
  unfold rhe
  split_ifs with h1 h2 h3
  · refine ⟨by linarith, by linarith, fun h => ?_, fun h => ?_⟩
    · exfalso; linarith
    · exfalso; linarith
  · push_cast
    refine ⟨by linarith, by linarith, fun h => ?_, fun h => ?_⟩
    · exfalso; linarith
    · exfalso; linarith
  · have hq : q = ((⌊q⌋ : ℤ) : ℚ) + 1/2 := by linarith
    exact ⟨by linarith, by linarith, fun _ => h3, fun h => by exfalso; linarith⟩
  · have hq : q = ((⌊q⌋ : ℤ) : ℚ) + 1/2 := by linarith
    push_cast
    refine ⟨by linarith, by linarith, fun h => ?_, fun _ => by omega⟩
    exfalso; linarith

lemma round3_nonneg_le_one {x : ℚ} (h0 : 0 ≤ x) (h1 : x ≤ 1) :
    0 ≤ round3 x ∧ round3 x ≤ 1 := by
  obtain ⟨hl, hr, -, -⟩ := rhe_spec (1000 * x)
  have hge : (0 : ℤ) ≤ rhe (1000 * x) := by
    have hq : (-1 : ℚ) < ((rhe (1000 * x) : ℤ) : ℚ) := by linarith
    have hz : (-1 : ℤ) < rhe (1000 * x) := by exact_mod_cast hq
    omega
  have hle : rhe (1000 * x) ≤ 1000 := by
    have : ((rhe (1000 * x) : ℤ) : ℚ) < 1001 := by linarith
    have h' : rhe (1000 * x) < 1001 := by exact_mod_cast this
    omega
  constructor
  · unfold round3
    have : (0 : ℚ) ≤ ((rhe (1000 * x) : ℤ) : ℚ) := by exact_mod_cast hge
    positivity
  · unfold round3
    have : ((rhe (1000 * x) : ℤ) : ℚ) ≤ 1000 := by exact_mod_cast hle
    linarith

lemma round3_lt_floor {x : ℚ} (h : round3 x < 1/10) : x < 1/10 := by
  obtain ⟨-, hr, -, -⟩ := rhe_spec (1000 * x)
  have h100 : rhe (1000 * x) < 100 := by
    unfold round3 at h
    by_contra hc
    push_neg at hc
    have : (100 : ℚ) ≤ ((rhe (1000 * x) : ℤ) : ℚ) := by exact_mod_cast hc
    linarith
  have h99 : rhe (1000 * x) ≤ 99 := by omega
  have : ((rhe (1000 * x) : ℤ) : ℚ) ≤ 99 := by exact_mod_cast h99
  linarith

lemma round3_zero : round3 0 = 0 := by with_unfolding_all decide

lemma round3_one : round3 1 = 1 := by with_unfolding_all decide

/-- PreferenceLists, selection and weighting configuration of
GenreFixerCommand; provider and query type weights are the config lookups
of command.py lines 187 and 189. -/
structure Config where
  providerWeight : String → ℚ
  typeWeight : String → ℚ
  max_tags : ℕ
  tag_glue : String
  hate_list : List String
  dislike_list : List String
  like_list : List String
  love_list : List String

/-- The multiplier chain of get_scored_tags (command.py lines 166-175). -/
def multiplier (cfg : Config) (k : String) : ℚ :=
  if k ∈ cfg.hate_list then 0
  else if k ∈ cfg.dislike_list then 1/2
  else if k ∈ cfg.like_list then 3/2
  else if k ∈ cfg.love_list then 3
  else 1

/-- command.get_scored_tags (command.py lines 164-181): every value is
replaced in place by round(v * m, 3). -/
def get_scored_tags (cfg : Config) (tags : List (String × ℚ)) :
    List (String × ℚ) :=
  tags.map (fun p => (p.1, round3 (p.2 * multiplier cfg p.1)))

/-- One entry of tag_groups as built in process_item (command.py
lines 131-135). -/
structure TagGroup where
  provider : String
  qtype : String
  tags : List (String × ℚ)
deriving DecidableEq

/-- The inner loop body of create_unified_tag_list (command.py
lines 191-196). -/
def unify_step (pw tw : ℚ) (ulist : List (String × ℚ)) (kv : String × ℚ) :
    List (String × ℚ) :=
  let v := kv.2 * pw * tw
  let v2 :=
    match ulist.lookup kv.1 with
    | some u => u + v
    | none => v
  dinsert kv.1 (round3 v2) ulist

/-- Processing of one tag group by create_unified_tag_list. -/
def processGroup (cfg : Config) (ulist : List (String × ℚ))
    (tg : TagGroup) : List (String × ℚ) :=
  tg.tags.foldl
    (unify_step (cfg.providerWeight tg.provider.toLower)
      (cfg.typeWeight tg.qtype.toLower)) ulist

/-- command.create_unified_tag_list (command.py lines 183-198). -/
def create_unified_tag_list (cfg : Config) (tag_groups : List TagGroup) :
    List (String × ℚ) :=
  tag_groups.foldl (processGroup cfg) []

/-- Stable insertion used to model Python sorted(key=itemgetter(1),
reverse=True): an element is placed before the first entry whose score is
not larger, so equal scores keep their original relative order. -/
def insDesc (x : String × ℚ) : List (String × ℚ) → List (String × ℚ)
  | [] => [x]
  | y :: ys => if y.2 ≤ x.2 then x :: y :: ys else y :: insDesc x ys

/-- Python sorted by score descending (stable), command.py line 145. -/
def sortScored (l : List (String × ℚ)) : List (String × ℚ) :=
  l.foldr insDesc []

/-- Top tag selection of command.py line 150. -/
def select (scored : List (String × ℚ)) (maxTags : ℕ) : List String :=
  ((sortScored scored).map Prod.fst).take maxTags

/-- Adapter outcomes: NotImplementedError (unsupported capability) or
DataProviderError (dataprovider.py line 91). -/
inductive QueryErr where
  | notImplementedError : QueryErr
  | dataProviderError : String → QueryErr
deriving DecidableEq

/-- The metadata dict built in process_item (command.py lines 117-123). -/
structure Metadata where
  artist : String
  artistid : String
  album : String
  albumid : String
  year : Int
deriving DecidableEq

/-- A data provider: name plus the two query capabilities used by
get_tags_from_provider. -/
structure Provider where
  name : String
  query_artist : Metadata → Except QueryErr (List Block)
  query_album : Metadata → Except QueryErr (List Block)

/-- command.get_tags_from_provider (command.py lines 200-216): resp starts
as the empty list, the dispatch catches only NotImplementedError (pass), an
unknown query type only logs; a DataProviderError propagates. -/
def get_tags_from_provider (dp : Provider) (qtype : String)
    (metadata : Metadata) : Except QueryErr (List (String × ℚ)) :=
  let resp : Except QueryErr (List Block) :=
    if qtype = "artist" then dp.query_artist metadata
    else if qtype = "album" then dp.query_album metadata
    else Except.ok []
  match resp with
  | Except.ok r => Except.ok (format_tags (get_normalized_tags r))
  | Except.error QueryErr.notImplementedError =>
      Except.ok (format_tags (get_normalized_tags []))
  | Except.error e => Except.error e

/-- A library item; only the fields read or written by process_item. -/
structure Item where
  genre : String
  artist : String
  mb_artistid : String
  album : String
  mb_releasegroupid : String
  year : Int
deriving DecidableEq

/-- The metadata dict of command.py lines 117-123. -/
def item_metadata (item : Item) : Metadata :=
  { artist := item.artist, artistid := item.mb_artistid,
    album := item.album, albumid := item.mb_releasegroupid,
    year := item.year }

/-- The provider/query-type double loop of process_item (command.py
lines 125-135); a group is appended only when its tag map is nonempty. -/
def build_tag_groups (dps : List Provider) (qtypes : List String)
    (md : Metadata) : Except QueryErr (List TagGroup) :=
  dps.foldlM (fun acc dp =>
    qtypes.foldlM (fun acc2 qtype =>
      (get_tags_from_provider dp qtype md).map (fun tags =>
        if tags.isEmpty then acc2
        else acc2 ++ [{ provider := dp.name, qtype := qtype, tags := tags }]))
      acc) []

/-- The selected top tags of command.py lines 139-150. -/
def selected_tags (cfg : Config) (tag_groups : List TagGroup) : List String :=
  select (get_scored_tags cfg (create_unified_tag_list cfg tag_groups))
    cfg.max_tags

/-- command.process_item, lines 139-162: the pure part after the provider
loop; mutates genre only when the selection is nonempty and differs. -/
def process_item_core (cfg : Config) (tag_groups : List TagGroup)
    (item : Item) : Item × Bool :=
  let current_genre := item.genre
  let top_tags := selected_tags cfg tag_groups
  if top_tags.isEmpty then (item, false)
  else
    let new_genre := String.intercalate cfg.tag_glue top_tags
    if new_genre = current_genre then (item, false)
    else ({ item with genre := new_genre }, true)

/-- command.process_item (command.py lines 110-162). -/
def process_item (dps : List Provider) (qtypes : List String) (cfg : Config)
    (item : Item) : Except QueryErr (Item × Bool) :=
  (build_tag_groups dps qtypes (item_metadata item)).map
    (fun tgs => process_item_core cfg tgs item)

/-- The per-item loop of handle_main_task (command.py lines 96-101):
the returned list holds the items written back to the store, in order. -/
def handle_main_task (dps : List Provider) (qtypes : List String)
    (cfg : Config) (items : List Item) : Except QueryErr (List Item) :=
  items.foldlM (fun stored item =>
    (process_item dps qtypes cfg item).map (fun r =>
      if r.2 then stored ++ [r.1] else stored)) []

lemma lookup_dinsert_self (l : List (String × ℚ)) (k : String) (v : ℚ) :
    (dinsert k v l).lookup k = some v := by
  induction l with
  | nil => simp [dinsert, List.lookup]
  | cons p rest ih =>
    by_cases h : p.1 = k
    · simp [dinsert, h, List.lookup]
    · simp only [dinsert, if_neg h, List.lookup]
      have : (k == p.1) = false := by
        simp [beq_iff_eq]
        exact fun hh => h hh.symm
      rw [this]
      exact ih

lemma lookup_dinsert_ne (l : List (String × ℚ)) (k k' : String) (v : ℚ)
    (h : k ≠ k') : (dinsert k' v l).lookup k = l.lookup k := by
  have h0 : (k == k') = false := by simp [beq_iff_eq, h]
  induction l with
  | nil => simp [dinsert, List.lookup, h0]
  | cons p rest ih =>
    by_cases hp : p.1 = k'
    · simp only [dinsert, if_pos hp, List.lookup]
      have h1 : (k == k') = false := by simp [beq_iff_eq, h]
      have h2 : (k == p.1) = (k == k') := by rw [hp]
      rw [h1, h2, h1]
    · simp only [dinsert, if_neg hp, List.lookup]
      cases hkp : (k == p.1) with
      | true => rfl
      | false => exact ih

lemma lookup_eq_none_keys (l : List (String × ℚ)) (k : String)
    (h : ∀ p ∈ l, p.1 ≠ k) : l.lookup k = none := by
  induction l with
  | nil => rfl
  | cons p rest ih =>
    have hk : (k == p.1) = false := by
      simp only [beq_eq_false_iff_ne, ne_eq]
      exact fun hh => h p (by simp) hh.symm
    simp only [List.lookup, hk]
    exact ih (fun q hq => h q (by simp [hq]))

/-- Largest power of two not exceeding x, reached by doubling (1 ≤ x);
written with a bare recursor so that evaluation only unfolds as many fuel
steps as the loop actually takes. -/
def pow2Up (fuel : ℕ) : ℚ → ℚ → ℚ :=
  Nat.rec (motive := fun _ => ℚ → ℚ → ℚ) (fun _ p => p)
    (fun _ ih x p => if p * 2 ≤ x then ih x (p * 2) else p) fuel

/-- Largest power of two not exceeding x, reached by halving (0 < x < 1). -/
def pow2Down (fuel : ℕ) : ℚ → ℚ → ℚ :=
  Nat.rec (motive := fun _ => ℚ → ℚ → ℚ) (fun _ p => p)
    (fun _ ih x p => if x < p then ih x (p / 2) else p) fuel

/-- The binade of a positive rational: the power of two p with p ≤ x < 2p.
The fuel covers exponents far beyond the binary64 range. -/
def binadeOf (x : ℚ) : ℚ :=
  if 1 ≤ x then pow2Up 1200 x 1 else pow2Down 1200 x 1

/-- Rounding of a positive rational to 53 significant bits: the
significand x divided by the unit in the last place (binade divided by
2 to the 52nd, written as a literal) is rounded half-to-even. -/
def flPos (x : ℚ) : ℚ :=
  let ulp := binadeOf x / 4503599627370496
  ((rhe (x / ulp) : ℤ) : ℚ) * ulp

/-- Round a rational to the nearest binary64 value, ties to even. This
models IEEE-754 double precision in the normal range, which is how
CPython stores every float command.py computes. -/
def fl (x : ℚ) : ℚ :=
  if x = 0 then 0
  else if 0 < x then flPos x
  else -flPos (-x)

/-- CPython round(v, 3) applied to a double: the exact binary value of the
double is rounded half-to-even to 3 decimals (CPython rounds correctly via
the exact value) and the decimal result is stored as the nearest double. -/
def pyround3f (x : ℚ) : ℚ := fl (round3 x)

/-- The inner loop body of create_unified_tag_list (command.py lines
191-196) at binary64 precision: both multiplications, the running-sum
addition and the stored rounded value all pass through double rounding. -/
def unify_stepF (pw tw : ℚ) (ulist : List (String × ℚ)) (kv : String × ℚ) :
    List (String × ℚ) :=
  let v := fl (fl (kv.2 * pw) * tw)
  let v2 :=
    match ulist.lookup kv.1 with
    | some u => fl (u + v)
    | none => v
  dinsert kv.1 (pyround3f v2) ulist

/-- Processing of one tag group by create_unified_tag_list at binary64
precision. -/
def processGroupF (cfg : Config) (ulist : List (String × ℚ))
    (tg : TagGroup) : List (String × ℚ) :=
  tg.tags.foldl
    (unify_stepF (cfg.providerWeight tg.provider.toLower)
      (cfg.typeWeight tg.qtype.toLower)) ulist

/-- command.create_unified_tag_list (command.py lines 183-198) at binary64
precision, the arithmetic the interpreter actually performs. -/
def create_unified_tag_list_f (cfg : Config) (tag_groups : List TagGroup) :
    List (String × ℚ) :=
  tag_groups.foldl (processGroupF cfg) []

/-- Source weights realizing the binary64 contributions 1/16, 1/16 and 1/8
(0.5 times 0.125 and 0.25 times 0.5; every product is an exact double). -/
def cfgF : Config :=
  { providerWeight := fun s => if s = "p3" then 1/2 else 1/8,
    typeWeight := fun _ => 1,
    max_tags := 4, tag_glue := ", ",
    hate_list := [], dislike_list := [], like_list := [], love_list := [] }

def fG1 : TagGroup := { provider := "p1", qtype := "album", tags := [("K", 1/2)] }

def fG2 : TagGroup := { provider := "p2", qtype := "album", tags := [("K", 1/2)] }

def fG3 : TagGroup := { provider := "p3", qtype := "album", tags := [("K", 1/4)] }

/-- C5 counterexample: aggregation is not order-independent within 0.001.
The record sequences [G1,G2,G3] and [G3,G1,G2] are permutations of each
other and each record contributes weight times sourceWeight times
typeWeight to tag K (1/16, 1/16 and 1/8, every product an exact double).
At binary64 precision the first order yields the double 0.249
(2242792614430507 / 2^53) and the second the double 0.251
(2260807012939989 / 2^53): the doubles 0.062 and 0.188 produced by the
intermediate roundings sit on opposite sides of the subsequent decimal
tie, so the running sums round to 124 then 249 in one order and to 188
then 251 in the other, a 0.002 disagreement. -/
theorem C5_counterexample :
    (create_unified_tag_list_f cfgF [fG1, fG2, fG3]).lookup "K"
        = some (2242792614430507 / 9007199254740992)
    ∧ (create_unified_tag_list_f cfgF [fG3, fG1, fG2]).lookup "K"
        = some (2260807012939989 / 9007199254740992)
    ∧ ¬ |(2242792614430507 : ℚ) / 9007199254740992
          - 2260807012939989 / 9007199254740992| ≤ 1/1000 := by
  refine ⟨by with_unfolding_all rfl, by with_unfolding_all rfl, ?_⟩
  intro h
  rw [abs_le] at h
  have h1 := h.1
  norm_num at h1

lemma lookup_dinsert_isSome (l : List (String × ℚ)) (k k' : String)
    (v : ℚ) :
    ((dinsert k' v l).lookup k).isSome = true
      ↔ k = k' ∨ (l.lookup k).isSome = true := by
  by_cases h : k = k'
  · subst h
    simp [lookup_dinsert_self]
  · rw [lookup_dinsert_ne l k k' v h]
    simp [h]

lemma unify_stepF_isSome (pw tw : ℚ) (ul : List (String × ℚ))
    (kv : String × ℚ) (k : String) :
    ((unify_stepF pw tw ul kv).lookup k).isSome = true
      ↔ k = kv.1 ∨ (ul.lookup k).isSome = true := by
  unfold unify_stepF
  exact lookup_dinsert_isSome ul k kv.1 _

lemma fold_unifyF_isSome (pw tw : ℚ) (k : String) :
    ∀ (tags : List (String × ℚ)) (ul : List (String × ℚ)),
      ((tags.foldl (unify_stepF pw tw) ul).lookup k).isSome = true
        ↔ (ul.lookup k).isSome = true ∨ ∃ p ∈ tags, p.1 = k := by
  intro tags
  induction tags with
  | nil => intro ul; simp
  | cons q rest ih =>
    intro ul
    rw [List.foldl_cons, ih (unify_stepF pw tw ul q), unify_stepF_isSome]
    constructor
    · rintro ((h | h) | ⟨p, hp, hpk⟩)
      · exact Or.inr ⟨q, by simp, h.symm⟩
      · exact Or.inl h
      · exact Or.inr ⟨p, by simp [hp], hpk⟩
    · rintro (h | ⟨p, hp, hpk⟩)
      · exact Or.inl (Or.inr h)
      · rcases List.mem_cons.mp hp with rfl | hpr
        · exact Or.inl (Or.inl hpk.symm)
        · exact Or.inr ⟨p, hpr, hpk⟩

lemma createF_isSome (cfg : Config) (k : String) :
    ∀ (l : List TagGroup) (ul : List (String × ℚ)),
      ((l.foldl (processGroupF cfg) ul).lookup k).isSome = true
        ↔ (ul.lookup k).isSome = true
          ∨ ∃ g ∈ l, ∃ p ∈ g.tags, p.1 = k := by
  intro l
  induction l with
  | nil => intro ul; simp
  | cons g rest ih =>
    intro ul
    rw [List.foldl_cons, ih (processGroupF cfg ul g)]
    have hg : ((processGroupF cfg ul g).lookup k).isSome = true
        ↔ (ul.lookup k).isSome = true ∨ ∃ p ∈ g.tags, p.1 = k :=
      fold_unifyF_isSome _ _ k g.tags ul
    rw [hg]
    constructor
    · rintro ((h | h) | ⟨g', hg', hp⟩)
      · exact Or.inl h
      · exact Or.inr ⟨g, by simp, h⟩
      · exact Or.inr ⟨g', by simp [hg'], hp⟩
    · rintro (h | ⟨g', hg', hp⟩)
      · exact Or.inl (Or.inl h)
      · rcases List.mem_cons.mp hg' with rfl | hgr
        · exact Or.inl (Or.inr hp)
        · exact Or.inr ⟨g', hgr, hp⟩

/-- C5 (amended): the aggregation of command.py lines 183-198, with each
record contributing weight times sourceWeight times typeWeight per tag and
the running sum rounded after each addition at binary64 precision, is
order-independent in WHICH tags it reports but not in their scores: every
permutation of the record sequence yields a unified map defined on exactly
the same tags, while the scores themselves can differ by more than 0.001
between permutations (three records suffice for a 0.002 disagreement). -/
theorem C5_key_set_order_independent (cfg : Config)
    (l1 l2 : List TagGroup) (hperm : l1.Perm l2) (k : String) :
    ((create_unified_tag_list_f cfg l1).lookup k).isSome
      = ((create_unified_tag_list_f cfg l2).lookup k).isSome := by
  rw [Bool.eq_iff_iff]
  have h1 := createF_isSome cfg k l1 []
  have h2 := createF_isSome cfg k l2 []
  rw [create_unified_tag_list_f, h1, create_unified_tag_list_f, h2]
  have hnil : ((([] : List (String × ℚ)).lookup k).isSome = true) ↔ False := by
    simp [List.lookup]
  rw [hnil]
  constructor
  · rintro (h | ⟨g, hg, hp⟩)
    · exact absurd h id
    · exact Or.inr ⟨g, hperm.mem_iff.mp hg, hp⟩
  · rintro (h | ⟨g, hg, hp⟩)
    · exact absurd h id
    · exact Or.inr ⟨g, hperm.mem_iff.mpr hg, hp⟩

/-- Witness for C5: the key set agrees across a concrete swap of two
records. -/
theorem C5_witness :
    ((create_unified_tag_list_f cfgF [fG1, fG3]).lookup "K").isSome
      = ((create_unified_tag_list_f cfgF [fG3, fG1]).lookup "K").isSome :=
  C5_key_set_order_independent cfgF [fG1, fG3] [fG3, fG1]
    (List.Perm.swap fG3 fG1 []) "K"

lemma mem_insDesc (x p : String × ℚ) :
    ∀ l, p ∈ insDesc x l → p = x ∨ p ∈ l := by
  intro l
  induction l with
  | nil => intro h; simp [insDesc] at h; exact Or.inl h
  | cons y ys ih =>
    intro h
    by_cases hxy : y.2 ≤ x.2
    · simp only [insDesc, if_pos hxy] at h
      rcases List.mem_cons.mp h with rfl | h2
      · exact Or.inl rfl
      · exact Or.inr h2
    · simp only [insDesc, if_neg hxy] at h
      rcases List.mem_cons.mp h with rfl | h2
      · exact Or.inr (by simp)
      · rcases ih h2 with h3 | h3
        · exact Or.inl h3
        · exact Or.inr (by simp [h3])

lemma pairwise_insDesc (x : String × ℚ) :
    ∀ l, l.Pairwise (fun a b => b.2 ≤ a.2) →
      (insDesc x l).Pairwise (fun a b => b.2 ≤ a.2) := by
  intro l
  induction l with
  | nil => intro _; simp [insDesc]
  | cons y ys ih =>
    intro h
    rw [List.pairwise_cons] at h
    by_cases hxy : y.2 ≤ x.2
    · simp only [insDesc, if_pos hxy]
      rw [List.pairwise_cons]
      refine ⟨?_, List.pairwise_cons.mpr h⟩
      intro z hz
      rcases List.mem_cons.mp hz with rfl | hzys
      · exact hxy
      · exact le_trans (h.1 z hzys) hxy
    · simp only [insDesc, if_neg hxy]
      rw [List.pairwise_cons]
      refine ⟨?_, ih h.2⟩
      intro z hz
      rcases mem_insDesc x z ys hz with rfl | hzys
      · push_neg at hxy
        exact le_of_lt hxy
      · exact h.1 z hzys

lemma perm_insDesc (x : String × ℚ) : ∀ l, (insDesc x l).Perm (x :: l) := by
  intro l
  induction l with
  | nil => exact List.Perm.refl _
  | cons y ys ih =>
    by_cases hxy : y.2 ≤ x.2
    · simp only [insDesc, if_pos hxy]
      exact List.Perm.refl _
    · simp only [insDesc, if_neg hxy]
      exact List.Perm.trans (List.Perm.cons y ih) (List.Perm.swap x y ys)

lemma filter_insDesc (s : ℚ) (x : String × ℚ) :
    ∀ l, (insDesc x l).filter (fun p => decide (p.2 = s))
      = (x :: l).filter (fun p => decide (p.2 = s)) := by
  intro l
  induction l with
  | nil => rfl
  | cons y ys ih =>
    by_cases hxy : y.2 ≤ x.2
    · simp only [insDesc, if_pos hxy]
    · simp only [insDesc, if_neg hxy]
      push_neg at hxy
      by_cases hx : x.2 = s
      · have hy : ¬ y.2 = s := by
          intro h
          rw [h, ← hx] at hxy
          exact absurd hxy (lt_irrefl x.2)
        simp only [List.filter_cons, hx, hy, decide_True, decide_False,
          if_true, if_false, ih] at *
        simp [List.filter_cons, hy, hx, ih]
      · simp [List.filter_cons, hx, ih]

lemma sortScored_pairwise (l : List (String × ℚ)) :
    (sortScored l).Pairwise (fun a b => b.2 ≤ a.2) := by
  induction l with
  | nil => simp [sortScored]
  | cons y ys ih => exact pairwise_insDesc y (sortScored ys) ih

lemma sortScored_perm (l : List (String × ℚ)) : (sortScored l).Perm l := by
  induction l with
  | nil => exact List.Perm.refl _
  | cons y ys ih =>
    exact List.Perm.trans (perm_insDesc y (sortScored ys))
      (List.Perm.cons y ih)

lemma sortScored_filter (l : List (String × ℚ)) (s : ℚ) :
    (sortScored l).filter (fun p => decide (p.2 = s))
      = l.filter (fun p => decide (p.2 = s)) := by
  induction l with
  | nil => rfl
  | cons y ys ih =>
    have h1 := filter_insDesc s y (sortScored ys)
    simp only [sortScored, List.foldr_cons] at *
    rw [h1, List.filter_cons, List.filter_cons, ih]

/-- C1 counterexample: on the scored map Rock 5.0, Pop 5.0, Jazz 1.0 (in
that insertion order) with maxTags = 2, the code selects [Rock, Pop]
(stable sort keeps insertion order among ties), not the alphabetical
[Pop, Rock] stated in the claim. -/
theorem C1_counterexample :
    select [("Rock", (5:ℚ)), ("Pop", 5), ("Jazz", 1)] 2 = ["Rock", "Pop"]
    ∧ (["Rock", "Pop"] : List String) ≠ ["Pop", "Rock"] :=
  ⟨by with_unfolding_all decide, by decide⟩

/-- C1 (amended): selection sorts descending by final score and the sort
is stable, so ties keep the insertion order of the scored map: the sorted
list is a permutation, scores are non-increasing, and for every score the
entries carrying it appear in their original order; on the concrete map
Rock 5.0, Pop 5.0, Jazz 1.0 with maxTags = 2 the output is [Rock, Pop] on
every run. -/
theorem C1_selection_stable_descending :
    (∀ l : List (String × ℚ),
        (sortScored l).Pairwise (fun a b => b.2 ≤ a.2)
        ∧ (sortScored l).Perm l
        ∧ ∀ s : ℚ, (sortScored l).filter (fun p => decide (p.2 = s))
            = l.filter (fun p => decide (p.2 = s)))
    ∧ select [("Rock", (5:ℚ)), ("Pop", 5), ("Jazz", 1)] 2 = ["Rock", "Pop"] :=
  ⟨fun l => ⟨sortScored_pairwise l, sortScored_perm l, sortScored_filter l⟩,
    by with_unfolding_all decide⟩

lemma titleAux_true_lower :
    ∀ (cs : List Char), (∀ c ∈ cs, c.isAlpha = true) →
      titleAux true cs = cs.map Char.toLower := by
  intro cs
  induction cs with
  | nil => intro _; rfl
  | cons c rest ih =>
    intro h
    have hc : c.isAlpha = true := h c (by simp)
    simp only [titleAux, hc, if_true, List.map_cons]
    exact congrArg _ (ih (fun d hd => h d (by simp [hd])))

/-- C7 counterexample: the tag r and b glued with an ampersand has length
3, so the claim says first letter upper and the rest lower (R&b), but
Python str.title upper-cases every letter that follows a non-letter, so
the code produces R&B. -/
theorem C7_counterexample :
    get_formatted_tag "r&b" = "R&B" ∧ specFormatTag "r&b" = "R&b"
    ∧ get_formatted_tag "r&b" ≠ specFormatTag "r&b" :=
  ⟨by with_unfolding_all decide, by with_unfolding_all decide,
    by with_unfolding_all decide⟩

/-- C7 (amended): canonicalization splits on spaces, upper-cases words of
length below 3 and applies Python title casing to longer words, which on a
word consisting only of letters is exactly first letter upper and the rest
lower; the three examples of the claim hold. -/
theorem C7_canonicalization :
    (∀ (c : Char) (cs : List Char), (∀ d ∈ c :: cs, d.isAlpha = true) →
        titleAux false (c :: cs) = c.toUpper :: cs.map Char.toLower)
    ∧ get_formatted_tag "deep house" = "Deep House"
    ∧ get_formatted_tag "nu disco" = "NU Disco"
    ∧ get_formatted_tag "rnb" = "Rnb" := by
  refine ⟨?_, by with_unfolding_all decide, by with_unfolding_all decide,
    by with_unfolding_all decide⟩
  intro c cs h
  have hc : c.isAlpha = true := h c (by simp)
  simp only [titleAux, hc, if_true]
  exact congrArg _ (titleAux_true_lower cs (fun d hd => h d (by simp [hd])))

/-- Witness for C7: the all-letter rule applied to the word rnb. -/
theorem C7_witness : titleAux false ['r', 'n', 'b'] = ['R', 'n', 'b'] := by
  have h := C7_canonicalization.1 'r' ['n', 'b'] (by decide)
  exact h.trans (by decide)

lemma mem_dinsert (k : String) (v : ℚ) :
    ∀ l p, p ∈ dinsert k v l → p = (k, v) ∨ p ∈ l := by
  intro l
  induction l with
  | nil => intro p h; simp [dinsert] at h; exact Or.inl h
  | cons y ys ih =>
    intro p h
    by_cases hy : y.1 = k
    · simp only [dinsert, if_pos hy] at h
      rcases List.mem_cons.mp h with rfl | h2
      · exact Or.inl rfl
      · exact Or.inr (by simp [h2])
    · simp only [dinsert, if_neg hy] at h
      rcases List.mem_cons.mp h with rfl | h2
      · exact Or.inr (by simp)
      · rcases ih p h2 with h3 | h3
        · exact Or.inl h3
        · exact Or.inr (by simp [h3])

lemma fmt_fold_mem :
    ∀ (l : List (String × ℚ)) (acc : List (String × ℚ)) (p : String × ℚ),
      p ∈ l.foldl (fun a q => dinsert (get_formatted_tag q.1) q.2 a) acc →
      p ∈ acc ∨ ∃ q ∈ l, p.1 = get_formatted_tag q.1 := by
  intro l
  induction l with
  | nil => intro acc p h; exact Or.inl h
  | cons x rest ih =>
    intro acc p h
    simp only [List.foldl_cons] at h
    rcases ih _ p h with h2 | ⟨q, hq, hfq⟩
    · rcases mem_dinsert (get_formatted_tag x.1) x.2 acc p h2 with rfl | h3
      · exact Or.inr ⟨x, by simp, rfl⟩
      · exact Or.inl h3
    · exact Or.inr ⟨q, by simp [hq], hfq⟩

lemma fmt_fold_lookup_none :
    ∀ (l : List (String × ℚ)) (acc : List (String × ℚ)) (k : String),
      (∀ q ∈ l, get_formatted_tag q.1 ≠ k) →
      (l.foldl (fun a q => dinsert (get_formatted_tag q.1) q.2 a) acc).lookup k
        = acc.lookup k := by
  intro l
  induction l with
  | nil => intro acc k _; rfl
  | cons x rest ih =>
    intro acc k h
    simp only [List.foldl_cons]
    rw [ih _ k (fun q hq => h q (by simp [hq]))]
    exact lookup_dinsert_ne acc k (get_formatted_tag x.1) x.2
      (fun hk => h x (by simp) hk.symm)

/-- C2 counterexample: the raw tags rock and ROCK both survive
normalization with weight 1, both canonicalize to Rock, and the dict
comprehension of command.py line 214 keeps only the later weight instead
of the sum 2. -/
theorem C2_counterexample :
    get_normalized_tags [⟨some [("rock", 2), ("ROCK", 2)]⟩]
        = [("rock", 1), ("ROCK", 1)]
    ∧ format_tags [("rock", (1:ℚ)), ("ROCK", 1)] = [("Rock", 1)]
    ∧ ((1 : ℚ) ≠ 1 + 1) :=
  ⟨by with_unfolding_all decide, by with_unfolding_all decide, by norm_num⟩

/-- C2 (amended): every key of the returned map is the canonicalization of
a surviving tag, and when several surviving tags canonicalize to the same
key the weight of the last colliding tag overwrites the earlier ones
(weights are not summed). -/
theorem C2_format_collision_overwrites :
    (∀ (tags : List (String × ℚ)) (p : String × ℚ), p ∈ format_tags tags →
        ∃ q ∈ tags, p.1 = get_formatted_tag q.1)
    ∧ (∀ (l1 l2 : List (String × ℚ)) (q : String × ℚ) (k : String),
        get_formatted_tag q.1 = k →
        (∀ p ∈ l2, get_formatted_tag p.1 ≠ k) →
        (format_tags (l1 ++ q :: l2)).lookup k = some q.2) := by
  constructor
  · intro tags p h
    rcases fmt_fold_mem tags [] p h with h2 | h2
    · simp at h2
    · exact h2
  · intro l1 l2 q k hq hl2
    unfold format_tags
    rw [List.foldl_append, List.foldl_cons]
    rw [fmt_fold_lookup_none l2 _ k hl2]
    rw [← hq]
    exact lookup_dinsert_self _ (get_formatted_tag q.1) q.2

/-- Witness for C2: the later collider ROCK overwrites rock. -/
theorem C2_witness :
    (format_tags [("rock", (1:ℚ)/2), ("ROCK", 3/10)]).lookup "Rock"
      = some (3/10) := by
  have h := C2_format_collision_overwrites.2 [("rock", (1:ℚ)/2)] []
    ("ROCK", 3/10) "Rock" (by with_unfolding_all decide) (by simp)
  exact h

/-- A concrete preference configuration hating Jazz. -/
def prefCfg : Config :=
  { providerWeight := fun _ => 1, typeWeight := fun _ => 1,
    max_tags := 4, tag_glue := ", ",
    hate_list := ["Jazz"], dislike_list := [], like_list := [],
    love_list := [] }

/-- C6: preference scoring replaces every unified score by
round(score * m, 3) where m is picked by first membership in
hate, dislike, like, love (0, 0.5, 1.5, 3) and defaults to 1; a hated tag
scores exactly 0 whatever its unified score, and the key set of the map is
unchanged, so the hated tag is not removed from the candidate set. -/
theorem C6_preference_scoring (cfg : Config) (tags : List (String × ℚ))
    (k : String) (v : ℚ) (h : (k, v) ∈ tags) :
    (k, round3 (v * multiplier cfg k)) ∈ get_scored_tags cfg tags
    ∧ (get_scored_tags cfg tags).map Prod.fst = tags.map Prod.fst
    ∧ (k ∈ cfg.hate_list → (k, (0:ℚ)) ∈ get_scored_tags cfg tags)
    ∧ (k ∈ cfg.hate_list → multiplier cfg k = 0)
    ∧ (k ∉ cfg.hate_list → k ∉ cfg.dislike_list → k ∉ cfg.like_list →
        k ∉ cfg.love_list → multiplier cfg k = 1) := by
  have h1 : (k, round3 (v * multiplier cfg k)) ∈ get_scored_tags cfg tags := by
    have := List.mem_map_of_mem
      (fun p : String × ℚ => (p.1, round3 (p.2 * multiplier cfg p.1))) h
    exact this
  refine ⟨h1, ?_, ?_, ?_, ?_⟩
  · simp [get_scored_tags, List.map_map, Function.comp]
  · intro hk
    have hm : multiplier cfg k = 0 := by simp [multiplier, hk]
    rw [hm, mul_zero, round3_zero] at h1
    exact h1
  · intro hk
    simp [multiplier, hk]
  · intro n1 n2 n3 n4
    simp [multiplier, n1, n2, n3, n4]

/-- Witness for C6: a hated tag with unified score 7 is scored 0 yet kept. -/
theorem C6_witness :
    ("Jazz", (0:ℚ)) ∈ get_scored_tags prefCfg [("Jazz", (7:ℚ))] :=
  (C6_preference_scoring prefCfg [("Jazz", (7:ℚ))] "Jazz" 7
    (by simp)).2.2.1 (by simp [prefCfg])

/-- C8: a response that is not exactly one block carrying a present tag
map (zero blocks, several blocks, or a single block without the tags
field) normalizes to the empty weight map. -/
theorem C8_normalize_requires_single_tagged_block (resp : List Block)
    (h : ¬ ∃ (b : Block) (t : List (String × ℚ)),
      resp = [b] ∧ b.tags = some t) :
    get_normalized_tags resp = [] := by
  cases resp with
  | nil => rfl
  | cons b rest =>
    cases rest with
    | cons b2 rest2 => rfl
    | nil =>
      cases hb : b.tags with
      | none => simp [get_normalized_tags, hb]
      | some t => exact absurd ⟨b, t, rfl, hb⟩ h

/-- Witness for C8: a single block without a tag map yields the empty map. -/
theorem C8_witness : get_normalized_tags [Block.mk none] = [] :=
  C8_normalize_requires_single_tagged_block [Block.mk none] (by
    rintro ⟨b, t, h1, h2⟩
    rw [List.cons.injEq] at h1
    rw [← h1.1] at h2
    exact Option.noConfusion h2)

lemma le_foldl_max :
    ∀ (l : List (String × ℚ)) (a : ℚ),
      a ≤ l.foldl (fun x q => max x q.2) a
      ∧ ∀ q ∈ l, q.2 ≤ l.foldl (fun x q => max x q.2) a := by
  intro l
  induction l with
  | nil => intro a; exact ⟨le_refl a, by simp⟩
  | cons y ys ih =>
    intro a
    simp only [List.foldl_cons]
    constructor
    · exact le_trans (le_max_left a y.2) (ih (max a y.2)).1
    · intro q hq
      rcases List.mem_cons.mp hq with rfl | hys
      · exact le_trans (le_max_right a q.2) (ih (max a q.2)).1
      · exact (ih (max a y.2)).2 q hys

lemma le_maxVals (t : List (String × ℚ)) (q : String × ℚ) (hq : q ∈ t) :
    q.2 ≤ maxVals t := by
  cases t with
  | nil => simp at hq
  | cons p ps =>
    rcases List.mem_cons.mp hq with rfl | hps
    · exact (le_foldl_max ps q.2).1
    · exact (le_foldl_max ps p.2).2 q hps

lemma nodup_keys_eq :
    ∀ (t : List (String × ℚ)), (t.map Prod.fst).Nodup →
      ∀ q q', q ∈ t → q' ∈ t → q.1 = q'.1 → q = q' := by
  intro t
  induction t with
  | nil => intro _ q q' hq; simp at hq
  | cons x rest ih =>
    intro hnd q q' hq hq' hk
    simp only [List.map_cons, List.nodup_cons] at hnd
    rcases List.mem_cons.mp hq with rfl | hqr
    · rcases List.mem_cons.mp hq' with rfl | hq'r
      · rfl
      · exact absurd (hk ▸ List.mem_map_of_mem Prod.fst hq'r) hnd.1
    · rcases List.mem_cons.mp hq' with rfl | hq'r
      · exact absurd (hk ▸ List.mem_map_of_mem Prod.fst hqr) hnd.1
      · exact ih hnd.2 q q' hqr hq'r hk

lemma normalized_eq_filterMap (t : List (String × ℚ)) (ht : t ≠ [])
    (hmax : maxVals t ≠ 0) :
    get_normalized_tags [⟨some t⟩]
      = t.filterMap (fun p => if (1:ℚ)/10 ≤ p.2 / maxVals t
          then some (p.1, round3 (p.2 / maxVals t)) else none) := by
  have hE : t.isEmpty = false := by
    cases t with
    | nil => exact absurd rfl ht
    | cons a l => rfl
  simp [get_normalized_tags, hE, hmax]

/-- C3: for a single block whose nonempty count map has positive maximum,
every retained tag has weight round(count divided by max, 3), all weights
lie in [0, 1], a maximum-count tag is retained with weight exactly 1, and
every tag whose rounded weight is below the 0.1 floor is absent from the
result. -/
theorem C3_normalization_bounds (t : List (String × ℚ)) (ht : t ≠ [])
    (hnd : (t.map Prod.fst).Nodup) (h0 : ∀ p ∈ t, 0 ≤ p.2)
    (hmax : 0 < maxVals t) :
    (∀ p ∈ get_normalized_tags [⟨some t⟩], ∃ q ∈ t,
        p.1 = q.1 ∧ p.2 = round3 (q.2 / maxVals t))
    ∧ (∀ p ∈ get_normalized_tags [⟨some t⟩], 0 ≤ p.2 ∧ p.2 ≤ 1)
    ∧ (∀ q ∈ t, q.2 = maxVals t →
        (q.1, (1:ℚ)) ∈ get_normalized_tags [⟨some t⟩])
    ∧ (∀ q ∈ t, round3 (q.2 / maxVals t) < 1/10 →
        (get_normalized_tags [⟨some t⟩]).lookup q.1 = none) := by
  have hr := normalized_eq_filterMap t ht hmax.ne'
  have hmem : ∀ p ∈ get_normalized_tags [⟨some t⟩], ∃ q ∈ t,
      p.1 = q.1 ∧ p.2 = round3 (q.2 / maxVals t)
      ∧ (1:ℚ)/10 ≤ q.2 / maxVals t := by
    intro p hp
    rw [hr] at hp
    rcases List.mem_filterMap.mp hp with ⟨q, hqt, hfq⟩
    by_cases hcond : (1:ℚ)/10 ≤ q.2 / maxVals t
    · rw [if_pos hcond] at hfq
      have heq := Option.some_inj.mp hfq
      exact ⟨q, hqt, by rw [← heq], by rw [← heq], hcond⟩
    · rw [if_neg hcond] at hfq
      exact Option.noConfusion hfq
  refine ⟨?_, ?_, ?_, ?_⟩
  · intro p hp
    rcases hmem p hp with ⟨q, hqt, h1, h2, -⟩
    exact ⟨q, hqt, h1, h2⟩
  · intro p hp
    rcases hmem p hp with ⟨q, hqt, -, h2, -⟩
    have hq0 : 0 ≤ q.2 / maxVals t :=
      div_nonneg (h0 q hqt) hmax.le
    have hq1 : q.2 / maxVals t ≤ 1 :=
      (div_le_one hmax).mpr (le_maxVals t q hqt)
    rw [h2]
    exact round3_nonneg_le_one hq0 hq1
  · intro q hqt hqmax
    rw [hr]
    refine List.mem_filterMap.mpr ⟨q, hqt, ?_⟩
    have hdiv : q.2 / maxVals t = 1 := by
      rw [hqmax]
      exact div_self hmax.ne'
    rw [hdiv, if_pos (by norm_num), round3_one]
  · intro q hqt hsmall
    have hlt : q.2 / maxVals t < 1/10 := round3_lt_floor hsmall
    apply lookup_eq_none_keys
    intro p hp hpk
    rcases hmem p hp with ⟨q', hq't, h1, -, hcond⟩
    have : q' = q := nodup_keys_eq t hnd q' q hq't hqt (by rw [← h1, hpk])
    rw [this] at hcond
    linarith

/-- Witness for C3: Rock 10 and Hard Rock 4 normalize with Rock at 1. -/
theorem C3_witness :
    ("Rock", (1:ℚ)) ∈
      get_normalized_tags [⟨some [("Rock", (10:ℚ)), ("Hard Rock", 4)]⟩] :=
  (C3_normalization_bounds [("Rock", (10:ℚ)), ("Hard Rock", 4)]
    (by simp) (by simp) (by with_unfolding_all decide)
    (by with_unfolding_all decide)).2.2.1 ("Rock", (10:ℚ)) (by simp)
    (by with_unfolding_all decide)

lemma foldl_max_const :
    ∀ (l : List (String × ℚ)) (a : ℚ), (∀ q ∈ l, q.2 ≤ a) →
      l.foldl (fun x q => max x q.2) a = a := by
  intro l
  induction l with
  | nil => intro a _; rfl
  | cons y ys ih =>
    intro a h
    simp only [List.foldl_cons]
    rw [max_eq_left (h y (by simp))]
    exact ih a (fun q hq => h q (by simp [hq]))

lemma maxVals_all_zero (t : List (String × ℚ)) (h0 : ∀ p ∈ t, p.2 = 0) :
    maxVals t = 0 := by
  cases t with
  | nil => rfl
  | cons p ps =>
    have hp : p.2 = 0 := h0 p (by simp)
    simp only [maxVals]
    rw [hp]
    exact foldl_max_const ps 0 (fun q hq => le_of_eq (h0 q (by simp [hq])))

lemma inv_succ_le_one (i : ℕ) : (1:ℚ) / ((i:ℚ) + 1) ≤ 1 := by
  rw [div_le_one (by positivity)]
  have : (0:ℚ) ≤ (i:ℚ) := Nat.cast_nonneg i
  linarith

lemma maxVals_rankFallback (t : List (String × ℚ)) (ht : t ≠ []) :
    maxVals (rankFallback t) = 1 := by
  cases t with
  | nil => exact absurd rfl ht
  | cons p ps =>
    have hr : rankFallback (p :: ps)
        = (p.1, (1:ℚ)) :: (ps.enumFrom 1).map
            (fun ip => (ip.2.1, (1:ℚ)/((ip.1:ℚ)+1))) := by
      simp [rankFallback, List.enum]
    rw [hr]
    simp only [maxVals]
    apply foldl_max_const
    intro q hq
    rcases List.mem_map.mp hq with ⟨ip, -, hip⟩
    rw [← hip]
    exact inv_succ_le_one ip.1

lemma floor_cond_iff (k : ℕ) : ((1:ℚ)/10 ≤ 1/((k:ℚ)+1)) ↔ k < 10 := by
  have hpos : (0:ℚ) < (k:ℚ) + 1 := by positivity
  rw [div_le_div_iff₀ (by norm_num) hpos]
  constructor
  · intro h
    have hk : (k:ℚ) < 10 := by linarith
    exact_mod_cast hk
  · intro h
    have hk9 : (k:ℚ) ≤ 9 := by exact_mod_cast Nat.lt_succ_iff.mp h
    linarith

lemma norm_fallback_eq :
    ∀ (l : List (String × ℚ)) (k : ℕ),
      (((l.enumFrom k).map
          (fun ip => (ip.2.1, (1:ℚ)/((ip.1:ℚ)+1)))).filterMap
        (fun p => if (1:ℚ)/10 ≤ p.2 then some (p.1, round3 p.2) else none))
      = ((l.take (10 - k)).enumFrom k).map
          (fun ip => (ip.2.1, round3 ((1:ℚ)/((ip.1:ℚ)+1)))) := by
  intro l
  induction l with
  | nil => intro k; simp
  | cons a rest ih =>
    intro k
    by_cases hk : k < 10
    · have hc : (1:ℚ)/10 ≤ 1/((k:ℚ)+1) := (floor_cond_iff k).mpr hk
      have h10 : 10 - k = (10 - (k + 1)) + 1 := by omega
      simp only [List.enumFrom, List.map_cons, List.filterMap_cons,
        if_pos hc, h10, List.take_succ_cons]
      rw [ih (k + 1)]
    · have hc : ¬ ((1:ℚ)/10 ≤ 1/((k:ℚ)+1)) := fun h =>
        hk ((floor_cond_iff k).mp h)
      have h10 : 10 - k = 0 := by omega
      have h10' : 10 - (k + 1) = 0 := by omega
      simp only [List.enumFrom, List.map_cons, List.filterMap_cons,
        if_neg hc, h10, List.take_zero]
      rw [ih (k + 1), h10']
      simp

lemma chain_dec :
    ∀ (l : List (String × ℚ)) (k : ℕ), k + l.length ≤ 10 →
      List.Chain' (fun a b => b.2 < a.2)
        ((l.enumFrom k).map
          (fun ip => (ip.2.1, round3 ((1:ℚ)/((ip.1:ℚ)+1))))) := by
  intro l
  induction l with
  | nil => intro k _; simp
  | cons a rest ih =>
    intro k hk
    cases rest with
    | nil => simp
    | cons b rest2 =>
      have hrw : (((a :: b :: rest2).enumFrom k).map
            (fun ip => (ip.2.1, round3 ((1:ℚ)/((ip.1:ℚ)+1)))))
          = (a.1, round3 ((1:ℚ)/((k:ℚ)+1)))
            :: (((b :: rest2).enumFrom (k+1)).map
              (fun ip => (ip.2.1, round3 ((1:ℚ)/((ip.1:ℚ)+1))))) := rfl
      rw [hrw]
      rw [List.chain'_cons']
      refine ⟨?_, ih (k + 1) (by simp at hk ⊢; omega)⟩
      intro y hy
      have hy' : y = (b.1, round3 ((1:ℚ)/(((k:ℕ)+1:ℚ)+1))) := by
        simp only [List.enumFrom, List.map_cons, List.head?_cons] at hy
        have := Option.some_inj.mp hy
        rw [← this]
        push_cast
        rfl
      rw [hy']
      have hk8 : k ≤ 8 := by simp at hk; omega
      interval_cases k <;> · push_cast; with_unfolding_all decide

/-- C4: for a single block whose counts are all zero, normalization falls
back to rank weights 1/(i+1) in insertion order and reapplies the rounding
and floor rule, so the result is exactly the first ten tags with weights
round(1/(i+1), 3); in particular the first tag survives with weight 1 and
the surviving weights strictly decrease; the concrete zero map A, B, C
yields A 1.0, B 0.5, C 0.333. -/
theorem C4_zero_count_fallback (t : List (String × ℚ)) (ht : t ≠ [])
    (hnd : (t.map Prod.fst).Nodup) (h0 : ∀ p ∈ t, p.2 = 0) :
    get_normalized_tags [⟨some t⟩]
        = (t.take 10).enum.map
            (fun ip => (ip.2.1, round3 ((1:ℚ)/((ip.1:ℚ)+1))))
    ∧ (get_normalized_tags [⟨some t⟩]).head?
        = t.head?.map (fun p => (p.1, (1:ℚ)))
    ∧ List.Chain' (fun a b => b.2 < a.2) (get_normalized_tags [⟨some t⟩])
    ∧ get_normalized_tags [⟨some [("A", (0:ℚ)), ("B", 0), ("C", 0)]⟩]
        = [("A", 1), ("B", 1/2), ("C", 333/1000)] := by
  have hE : t.isEmpty = false := by
    cases t with
    | nil => exact absurd rfl ht
    | cons a l => rfl
  have hmz : maxVals t = 0 := maxVals_all_zero t h0
  have hm1 : maxVals (rankFallback t) = 1 := maxVals_rankFallback t ht
  have hr : get_normalized_tags [⟨some t⟩]
      = (rankFallback t).filterMap
          (fun p => if (1:ℚ)/10 ≤ p.2 then some (p.1, round3 p.2)
            else none) := by
    simp [get_normalized_tags, hE, hmz, hm1]
  have henum : rankFallback t
      = (t.enumFrom 0).map (fun ip => (ip.2.1, (1:ℚ)/((ip.1:ℚ)+1))) := rfl
  have hchar : get_normalized_tags [⟨some t⟩]
      = ((t.take 10).enumFrom 0).map
          (fun ip => (ip.2.1, round3 ((1:ℚ)/((ip.1:ℚ)+1)))) := by
    rw [hr, henum]
    have h := norm_fallback_eq t 0
    rw [Nat.sub_zero] at h
    exact h
  refine ⟨hchar, ?_, ?_, by with_unfolding_all decide⟩
  · rw [hchar]
    cases t with
    | nil => exact absurd rfl ht
    | cons p ps =>
      rw [show (10:ℕ) = 9 + 1 from rfl, List.take_succ_cons]
      have hhead : (((p :: ps.take 9).enumFrom 0).map
          (fun ip => (ip.2.1, round3 ((1:ℚ)/((ip.1:ℚ)+1))))).head?
          = some (p.1, round3 ((1:ℚ)/(((0:ℕ):ℚ)+1))) := rfl
      rw [hhead]
      have h2 : round3 ((1:ℚ)/(((0:ℕ):ℚ)+1)) = 1 := by
        have h3 : (1:ℚ)/(((0:ℕ):ℚ)+1) = 1 := by norm_num
        rw [h3, round3_one]
      rw [h2]
      rfl
  · rw [hchar]
    apply chain_dec
    have := List.length_take 10 t
    omega

/-- Witness for C4: the degenerate all-zero map A, B, C. -/
theorem C4_witness :
    get_normalized_tags [⟨some [("A", (0:ℚ)), ("B", 0), ("C", 0)]⟩]
        = [("A", 1), ("B", 1/2), ("C", 333/1000)] :=
  (C4_zero_count_fallback [("A", (0:ℚ)), ("B", 0), ("C", 0)] (by simp)
    (by simp) (by with_unfolding_all decide)).2.2.2

/-- A neutral configuration: all weights 1, no preferences. -/
def cfg0 : Config :=
  { providerWeight := fun _ => 1, typeWeight := fun _ => 1,
    max_tags := 4, tag_glue := ", ",
    hate_list := [], dislike_list := [], like_list := [], love_list := [] }

/-- A concrete item. -/
def item0 : Item :=
  { genre := "", artist := "a", mb_artistid := "", album := "b",
    mb_releasegroupid := "", year := 2000 }

/-- A provider whose every query fails with a DataProviderError, as the
rate-limited client raises on a bad status code. -/
def dpBad : Provider :=
  { name := "Discogs",
    query_artist := fun _ =>
      Except.error (QueryErr.dataProviderError "status code 500"),
    query_album := fun _ =>
      Except.error (QueryErr.dataProviderError "status code 500") }

/-- A provider that does not implement its queries. -/
def dpNI : Provider :=
  { name := "LastFM",
    query_artist := fun _ => Except.error QueryErr.notImplementedError,
    query_album := fun _ => Except.error QueryErr.notImplementedError }

/-- A provider returning one usable album block. -/
def dpGood : Provider :=
  { name := "LastFM",
    query_artist := fun _ => Except.error QueryErr.notImplementedError,
    query_album := fun _ => Except.ok [⟨some [("rock", 5)]⟩] }

/-- C9 counterexample: a DataProviderError raised by the adapter query is
not caught by get_tags_from_provider (only NotImplementedError is), so it
is not converted into an empty contribution and aborts per-track
processing. -/
theorem C9_counterexample :
    get_tags_from_provider dpBad "album" (item_metadata item0)
        = Except.error (QueryErr.dataProviderError "status code 500")
    ∧ process_item [dpBad] ["album"] cfg0 item0
        = Except.error (QueryErr.dataProviderError "status code 500") :=
  ⟨rfl, rfl⟩

/-- C9 (amended): an unsupported capability (NotImplementedError) and an
unknown query type are converted into an empty contribution and never
abort the per-track flow, and a track with zero usable tag data yields no
change; a DataProviderError, however, propagates. -/
theorem C9_unsupported_yields_empty (dp : Provider) (md : Metadata)
    (qtype : String) :
    (dp.query_artist md = Except.error QueryErr.notImplementedError →
        get_tags_from_provider dp "artist" md = Except.ok [])
    ∧ (dp.query_album md = Except.error QueryErr.notImplementedError →
        get_tags_from_provider dp "album" md = Except.ok [])
    ∧ (qtype ≠ "artist" → qtype ≠ "album" →
        get_tags_from_provider dp qtype md = Except.ok [])
    ∧ (∀ (cfg : Config) (item : Item),
        process_item_core cfg [] item = (item, false)) := by
  refine ⟨?_, ?_, ?_, ?_⟩
  · intro h
    simp only [get_tags_from_provider, if_pos rfl, h]
    rfl
  · intro h
    have hne : ("album" : String) ≠ "artist" := by decide
    simp only [get_tags_from_provider, if_neg hne, if_pos rfl, h]
    rfl
  · intro h1 h2
    simp only [get_tags_from_provider, if_neg h1, if_neg h2]
    rfl
  · intro cfg item
    simp [process_item_core, selected_tags, select, sortScored,
      get_scored_tags, create_unified_tag_list]

/-- Witness for C9: the not-implemented provider contributes nothing. -/
theorem C9_witness :
    get_tags_from_provider dpNI "artist" (item_metadata item0)
      = Except.ok [] :=
  (C9_unsupported_yields_empty dpNI (item_metadata item0) "track").1 rfl

lemma handle_aux (dps : List Provider) (qtypes : List String) (cfg : Config) :
    ∀ (items : List Item) (acc stored : List Item),
      items.foldlM (fun stored item =>
        (process_item dps qtypes cfg item).map (fun r =>
          if r.2 then stored ++ [r.1] else stored)) acc = Except.ok stored →
      ∀ j ∈ stored, j ∈ acc ∨ ∃ it ∈ items,
        process_item dps qtypes cfg it = Except.ok (j, true) := by
  intro items
  induction items with
  | nil =>
    intro acc stored h j hj
    simp only [List.foldlM_nil] at h
    have hacc : acc = stored := by
      have : (Except.ok acc : Except QueryErr (List Item))
          = Except.ok stored := h
      exact Except.ok.inj this
    exact Or.inl (hacc ▸ hj)
  | cons item rest ih =>
    intro acc stored h j hj
    rw [List.foldlM_cons] at h
    cases hp : process_item dps qtypes cfg item with
    | error e =>
      rw [hp] at h
      exact absurd h (by simp [Except.map, Except.bind, Bind.bind])
    | ok r =>
      rw [hp] at h
      obtain ⟨it', ch⟩ := r
      cases ch with
      | false =>
        have h' : rest.foldlM (fun stored item =>
            (process_item dps qtypes cfg item).map (fun r =>
              if r.2 then stored ++ [r.1] else stored)) acc
            = Except.ok stored := by
          simpa [Except.map, Except.bind, Bind.bind] using h
        rcases ih acc stored h' j hj with h2 | ⟨it, hit, hp2⟩
        · exact Or.inl h2
        · exact Or.inr ⟨it, by simp [hit], hp2⟩
      | true =>
        have h' : rest.foldlM (fun stored item =>
            (process_item dps qtypes cfg item).map (fun r =>
              if r.2 then stored ++ [r.1] else stored)) (acc ++ [it'])
            = Except.ok stored := by
          simpa [Except.map, Except.bind, Bind.bind] using h
        rcases ih (acc ++ [it']) stored h' j hj with h2 | ⟨it, hit, hp2⟩
        · rcases List.mem_append.mp h2 with h3 | h3
          · exact Or.inl h3
          · have hj' : j = it' := by simpa using h3
            exact Or.inr ⟨item, by simp, by rw [hp, hj']⟩
        · exact Or.inr ⟨it, by simp [hit], hp2⟩

/-- C10: process_item mutates at most the genre field, and only when the
selected tag list is nonempty and the rendered genre differs from the
current one; when it returns false the item is unchanged, and
handle_main_task writes back exactly the items whose processing returned
true. -/
theorem C10_frame_and_store (dps : List Provider) (qtypes : List String)
    (cfg : Config) (item it' : Item) (ch : Bool)
    (h : process_item dps qtypes cfg item = Except.ok (it', ch)) :
    (it'.artist = item.artist ∧ it'.mb_artistid = item.mb_artistid
      ∧ it'.album = item.album
      ∧ it'.mb_releasegroupid = item.mb_releasegroupid
      ∧ it'.year = item.year)
    ∧ (ch = false → it' = item)
    ∧ (ch = true → ∃ tgs,
        build_tag_groups dps qtypes (item_metadata item) = Except.ok tgs
        ∧ selected_tags cfg tgs ≠ []
        ∧ it'.genre = String.intercalate cfg.tag_glue (selected_tags cfg tgs)
        ∧ it'.genre ≠ item.genre)
    ∧ (∀ (items stored : List Item),
        handle_main_task dps qtypes cfg items = Except.ok stored →
        ∀ j ∈ stored, ∃ it ∈ items,
          process_item dps qtypes cfg it = Except.ok (j, true)) := by
  have hstore : ∀ (items stored : List Item),
      handle_main_task dps qtypes cfg items = Except.ok stored →
      ∀ j ∈ stored, ∃ it ∈ items,
        process_item dps qtypes cfg it = Except.ok (j, true) := by
    intro items stored hh j hj
    rcases handle_aux dps qtypes cfg items [] stored hh j hj with h2 | h2
    · simp at h2
    · exact h2
  cases hb : build_tag_groups dps qtypes (item_metadata item) with
  | error e =>
    rw [process_item, hb] at h
    exact absurd h (by simp [Except.map])
  | ok tgs =>
    rw [process_item, hb] at h
    have hcore : process_item_core cfg tgs item = (it', ch) := by
      simpa [Except.map] using h
    by_cases hemp : (selected_tags cfg tgs).isEmpty
    · rw [process_item_core, if_pos hemp] at hcore
      obtain ⟨h1, h2⟩ := Prod.mk.inj hcore
      refine ⟨by rw [← h1]; exact ⟨rfl, rfl, rfl, rfl, rfl⟩,
        fun _ => h1.symm, fun hc => ?_, hstore⟩
      rw [← h2] at hc
      exact absurd hc (by simp)
    · by_cases hgeq : String.intercalate cfg.tag_glue
          (selected_tags cfg tgs) = item.genre
      · rw [process_item_core, if_neg hemp, if_pos hgeq] at hcore
        obtain ⟨h1, h2⟩ := Prod.mk.inj hcore
        refine ⟨by rw [← h1]; exact ⟨rfl, rfl, rfl, rfl, rfl⟩,
          fun _ => h1.symm, fun hc => ?_, hstore⟩
        rw [← h2] at hc
        exact absurd hc (by simp)
      · rw [process_item_core, if_neg hemp, if_neg hgeq] at hcore
        obtain ⟨h1, h2⟩ := Prod.mk.inj hcore
        refine ⟨by rw [← h1]; exact ⟨rfl, rfl, rfl, rfl, rfl⟩,
          fun hc => ?_, fun _ => ?_, hstore⟩
        · rw [← h2] at hc
          exact absurd hc (by simp)
        · refine ⟨tgs, rfl, ?_, ?_, ?_⟩
          · intro hnil
            exact hemp (by rw [hnil]; rfl)
          · rw [← h1]
          · rw [← h1]
            exact hgeq

/-- Witness for C10: a successful run on a concrete provider changes only
the genre field. -/
theorem C10_witness :
    ({ item0 with genre := "Rock" } : Item).artist = item0.artist :=
  (C10_frame_and_store [dpGood] ["album"] cfg0 item0
    { item0 with genre := "Rock" } true (by with_unfolding_all rfl)).1.1

end GenreFixer

